import Mathlib

/-!
Shallow embedding of the route attribute segmentation engine of the `radi`
bicycle route-planning client (`src/App.tsx`).

The embedded code is the body of `calculateRouteSurface` (the response
handler starting at the `.then((answer) => ...)` continuation), together
with the translation tables `translateSurface` and `translateLit`.

Modelling decisions:
* JavaScript numbers are modelled exactly: the embedded code only ever
  adds numbers and compares them for equality, so any exact commutative
  ring is a faithful carrier; `ℤ` is chosen so that every concrete run is
  kernel-computable. The JavaScript values `undefined` and `NaN`, which
  can flow into the distance totals, are modelled by the `JsVal` type,
  whose addition (`jsAdd`) and falsy-coalescing (`jsOr0`, modelling
  `x || 0`) follow JavaScript semantics.
* A JavaScript `Map` is modelled as an association list with
  insertion-order preserving `setAssoc` (update in place, append if new).
* `Object.fromEntries` (last entry wins on duplicate keys) is modelled by
  `nodesById`.
* A thrown `TypeError` (property access on `undefined`) aborts the whole
  handler before any state is published; the loop is therefore modelled in
  `Except JsError`, and `.error .typeError` marks the abort.
* A polyline stores the looked-up node records; a node lookup that misses
  yields the JavaScript value `undefined`, hence a path point is
  `Option OsmNode`.
-/

/-- `translateSurface` from `App.tsx` lines 97-140: the `switch` over the
raw OSM surface tag, rendered as the equivalent equality chain. -/
def translateSurface (surface : String) : String :=
  if surface = "paved" ∨ surface = "asphalt" ∨ surface = "concrete" then "Asphalt"
  else if surface = "concrete:lanes" then "Asphaltweg"
  else if surface = "concrete:plates" then "Asphaltplatten"
  else if surface = "paving_stones" then "Ebener Pflasterstein"
  else if surface = "sett" ∨ surface = "cobblestone" then "Pflasterstein"
  else if surface = "unhewn_cobblestone" then "Kopfsteinpflaster"
  else if surface = "unpaved" then "Uneben"
  else if surface = "compacted" then "Guter Waldweg"
  else if surface = "fine_gravel" ∨ surface = "pebblestone" then "Kies"
  else if surface = "gravel" then "Schotter"
  else if surface = "earth" ∨ surface = "dirt" ∨ surface = "ground" then "Erdboden"
  else if surface = "grass" then "Gras"
  else if surface = "grass_paver" then "Betonstein auf Gras"
  else if surface = "mud" then "Matsch"
  else if surface = "sand" then "Sand"
  else if surface = "woodchips" then "Holzschnitzel"
  else surface

/-- The keys of the fixed `translateSurface` table (the `case` labels of the
`switch`). -/
def surfaceTableKeys : List String :=
  ["paved", "asphalt", "concrete", "concrete:lanes", "concrete:plates",
   "paving_stones", "sett", "cobblestone", "unhewn_cobblestone", "unpaved",
   "compacted", "fine_gravel", "pebblestone", "gravel", "earth", "dirt",
   "ground", "grass", "grass_paver", "mud", "sand", "woodchips"]

/-- `translateLit` from `App.tsx` lines 161-167. -/
def translateLit (lit : String) : String :=
  if lit = "no" then "Nicht beleuchtet" else "Beleuchtet"

/-- Line 293: `tags.surface === undefined ? "Unbekannt" : translateSurface(...)`. -/
def classifySurface : Option String → String
  | none => "Unbekannt"
  | some s => translateSurface s

/-- Line 294: `tags.lit === undefined ? "Unbekannt" : translateLit(...)`. -/
def classifyLit : Option String → String
  | none => "Unbekannt"
  | some s => translateLit s

/-- A JavaScript numeric value as it can appear in the distance totals:
a finite number, `NaN`, or `undefined`. -/
inductive JsVal where
  | num (q : ℤ)
  | nan
  | undef
deriving DecidableEq, Repr

/-- JavaScript `+` on the values that occur in the totals: adding `NaN` or
`undefined` to anything yields `NaN`. -/
def jsAdd : JsVal → JsVal → JsVal
  | .num a, .num b => .num (a + b)
  | _, _ => .nan

/-- JavaScript `x || 0` (line 322 / 329): falsy values (`0`, `NaN`,
`undefined`) are replaced by `0`. -/
def jsOr0 : JsVal → JsVal
  | .num q => if q = 0 then .num 0 else .num q
  | _ => .num 0

/-- Converts an optional rational (a possibly-`undefined` array read) to a
JavaScript value. -/
def jsOfOpt : Option ℤ → JsVal
  | none => .undef
  | some q => .num q

/-- The only runtime error the handler can raise: a `TypeError` from a
property access on `undefined`. -/
inductive JsError where
  | typeError
deriving DecidableEq, Repr

/-- An OSM node record from the Overpass answer (`type: "node"`). -/
structure OsmNode where
  id : Int
  lat : ℤ
  lon : ℤ
deriving DecidableEq, Repr

/-- The `tags` object of a way. Either tag may be absent. -/
structure WayTags where
  surface : Option String
  lit : Option String
deriving DecidableEq, Repr

/-- An OSM way record from the Overpass answer (`type: "way"`): its node
membership list and its (possibly absent) `tags` object. -/
structure Way where
  nodes : List Int
  tags : Option WayTags
deriving DecidableEq, Repr

/-- One element of `answer.elements`. -/
inductive Element where
  | wayEl (w : Way)
  | nodeEl (n : OsmNode)
  | otherEl
deriving DecidableEq, Repr

/-- Line 286: `answer.elements.filter(e => e.type === 'way')`. -/
def waysOf (els : List Element) : List Way :=
  els.filterMap fun e => match e with | .wayEl w => some w | _ => none

/-- A route edge as built on lines 260-272 (`queryItems`): the distance
read from the distance array (possibly `undefined` when the index is out of
range) and the two node ids. -/
structure QueryItem where
  distance : Option ℤ
  start : Int
  end_ : Int
deriving DecidableEq, Repr

/-- Lines 260-272: `nodes.map((n, i) => i < nodes.length - 1 ? {distance:
distances[i], start: n, end: nodes[i+1]} : null).filter(i => i !== null)`,
rendered index-based (`n = nodes[i]`). -/
def mkQueryItems (nodes : List Int) (distances : List ℤ) : List QueryItem :=
  (List.range nodes.length).filterMap fun i =>
    if i < nodes.length - 1 then
      some { distance := distances[i]?, start := nodes.getD i 0, end_ := nodes.getD (i + 1) 0 }
    else
      none

/-- JavaScript `Map.get`. -/
def lookupAssoc {α : Type} : List (String × α) → String → Option α
  | [], _ => none
  | (k', v) :: rest, k => if k' = k then some v else lookupAssoc rest k

/-- JavaScript `Map.set`: replaces the value of an existing key in place
(preserving insertion order) or appends a new entry. -/
def setAssoc {α : Type} : List (String × α) → String → α → List (String × α)
  | [], k, v => [(k, v)]
  | (k', v') :: rest, k, v =>
    if k' = k then (k', v) :: rest else (k', v') :: setAssoc rest k v

/-- Lines 321-326 (and 328-333): `if (m.has(k)) { m.set(k, (m.get(k) || 0)
+ d) } else { m.set(k, d) }`. -/
def addTotal (m : List (String × JsVal)) (k : String) (d : JsVal) :
    List (String × JsVal) :=
  match lookupAssoc m k with
  | some v => setAssoc m k (jsAdd (jsOr0 v) d)
  | none => setAssoc m k d

/-- Line 287: `Object.fromEntries(elements.filter(e => e.type ===
'node').map(node => [node.id, node]))`, read back with `obj[id]`; on
duplicate ids the last entry wins. -/
def nodesById (els : List Element) (id : Int) : Option OsmNode :=
  ((els.filterMap fun e => match e with | .nodeEl n => some n | _ => none).filter
    fun n => n.id = id).getLast?

/-- A polyline: the list of node records pushed into it. A point is
`Option OsmNode` because a failed `nodesById` lookup pushes `undefined`. -/
abbrev PolyPath : Type := List (Option OsmNode)

/-- The per-category polyline map (`illuminatedPaths` / `surfacePaths`). -/
abbrev PolysMap : Type := List (String × List PolyPath)

/-- `paths.get(key)?.slice(-1)?.[0].push(endNode)` (line 302 / 313):
append `endNode` to the last polyline of the list. -/
def extendLastPath : List PolyPath → Option OsmNode → List PolyPath
  | [], _ => []
  | [p], e => [p ++ [e]]
  | p :: q :: rest, e => p :: extendLastPath (q :: rest) e

/-- `paths.get(key)?.slice(-1)?.[0]?.slice(-1)?.[0]` (line 300 / 311): the
last point of the last polyline, `undefined` when the list or the last
polyline is empty or the stored point itself is `undefined`. -/
def lastPointOf (pls : List PolyPath) : Option OsmNode :=
  (pls.getLast?.bind List.getLast?).join

/-- Lines 299-308 (identically 310-319): the polyline-merge step for one
category map. `lastPoint` is `paths.get(key)?.slice(-1)?.[0]?.slice(-1)?.[0]`;
when it is defined, `lastPoint.lat === startNode.lat` throws a `TypeError`
if `startNode` is `undefined`. -/
def updatePaths (paths : PolysMap) (key : String)
    (startNode endNode : Option OsmNode) : Except JsError PolysMap :=
  match lookupAssoc paths key with
  | none => .ok (setAssoc paths key [[startNode, endNode]])
  | some pls =>
    match lastPointOf pls with
    | none => .ok (setAssoc paths key (pls ++ [[startNode, endNode]]))
    | some lp =>
      match startNode with
      | none => .error .typeError
      | some s =>
        if lp.lat = s.lat ∧ lp.lon = s.lon then
          .ok (setAssoc paths key (extendLastPath pls endNode))
        else
          .ok (setAssoc paths key (pls ++ [[startNode, endNode]]))

/-- Line 292: `ways.find(way => way.nodes.includes(item.start) &&
way.nodes.includes(item.end))`. -/
def findWay (ways : List Way) (s e : Int) : Option Way :=
  ways.find? fun way => way.nodes.contains s && way.nodes.contains e

/-- The mutable collections of the handler (lines 283-289), gathered into
one record. -/
structure AggState where
  surfaces : List (String × JsVal)
  illuminated : List (String × JsVal)
  surfacePaths : PolysMap
  illuminatedPaths : PolysMap
deriving DecidableEq, Repr

/-- The freshly created empty collections (lines 283-289). -/
def initAgg : AggState := ⟨[], [], [], []⟩

/-- The body of `for (const item of queryItems) { ... }` (lines 291-334)
for a single item. A `ways.find` miss or an absent `tags` object throws a
`TypeError` at line 293 before any collection is touched. -/
def processItem (ways : List Way) (els : List Element) (st : AggState)
    (item : QueryItem) : Except JsError AggState :=
  match findWay ways item.start item.end_ with
  | none => .error .typeError
  | some way =>
    match way.tags with
    | none => .error .typeError
    | some tags =>
      let surface := classifySurface tags.surface
      let lit := classifyLit tags.lit
      let startNode := nodesById els item.start
      let endNode := nodesById els item.end_
      match updatePaths st.illuminatedPaths lit startNode endNode with
      | .error e => .error e
      | .ok ip =>
        match updatePaths st.surfacePaths surface startNode endNode with
        | .error e => .error e
        | .ok sp =>
          .ok { surfaces := addTotal st.surfaces surface (jsOfOpt item.distance),
                illuminated := addTotal st.illuminated lit (jsOfOpt item.distance),
                surfacePaths := sp,
                illuminatedPaths := ip }

/-- The whole `for` loop: a thrown `TypeError` aborts the handler, so no
later iteration runs and no result is published. -/
def runItems (ways : List Way) (els : List Element) :
    AggState → List QueryItem → Except JsError AggState
  | st, [] => .ok st
  | st, it :: rest =>
    match processItem ways els st it with
    | .error e => .error e
    | .ok st' => runItems ways els st' rest

/-- The aggregation core of `calculateRouteSurface` (lines 255-342): edge
extraction from the route annotation followed by the classification loop
over the Overpass answer's elements. -/
def calculateRouteSurface (nodes : List Int) (distances : List ℤ)
    (els : List Element) : Except JsError AggState :=
  runItems (waysOf els) els initAgg (mkQueryItems nodes distances)

/-! ### Basic lemmas about the JavaScript value and map models -/

theorem jsOr0_num (q : ℤ) : jsOr0 (.num q) = .num q := by
  by_cases h : q = 0 <;> simp [jsOr0, h]

theorem runItems_nil (ways : List Way) (els : List Element) (st : AggState) :
    runItems ways els st [] = .ok st := rfl

theorem runItems_cons (ways : List Way) (els : List Element) (st : AggState)
    (it : QueryItem) (rest : List QueryItem) :
    runItems ways els st (it :: rest) =
      match processItem ways els st it with
      | .error e => .error e
      | .ok st' => runItems ways els st' rest := rfl

theorem addTotal_nil (k : String) (d : JsVal) : addTotal [] k d = [(k, d)] := rfl

theorem addTotal_cons_self (k : String) (v : JsVal) (m : List (String × JsVal)) (d : JsVal) :
    addTotal ((k, v) :: m) k d = (k, jsAdd (jsOr0 v) d) :: m := by
  simp [addTotal, lookupAssoc, setAssoc]

theorem addTotal_cons_ne (k' : String) (v : JsVal) (m : List (String × JsVal))
    (k : String) (d : JsVal) (h : k' ≠ k) :
    addTotal ((k', v) :: m) k d = (k', v) :: addTotal m k d := by
  cases hm : lookupAssoc m k <;> simp [addTotal, lookupAssoc, setAssoc, h, hm]

theorem lookupAssoc_setAssoc_self {α : Type} (m : List (String × α)) (k : String) (v : α) :
    lookupAssoc (setAssoc m k v) k = some v := by
  induction m with
  | nil => simp [setAssoc, lookupAssoc]
  | cons p rest ih =>
    obtain ⟨k', v'⟩ := p
    by_cases h : k' = k <;> simp [setAssoc, lookupAssoc, h, ih]

theorem lookupAssoc_setAssoc_ne {α : Type} (m : List (String × α)) (k : String) (v : α)
    (k' : String) (h : k' ≠ k) :
    lookupAssoc (setAssoc m k v) k' = lookupAssoc m k' := by
  induction m with
  | nil => simp [setAssoc, lookupAssoc, Ne.symm h]
  | cons p rest ih =>
    obtain ⟨k'', v''⟩ := p
    by_cases hk : k'' = k
    · subst hk
      simp [setAssoc, lookupAssoc, Ne.symm h]
    · simp [setAssoc, lookupAssoc, hk, ih]

/-- The effect of one `addTotal` on the looked-up value of its own key. -/
def bumpVal (old : Option JsVal) (d : JsVal) : JsVal :=
  match old with
  | some v => jsAdd (jsOr0 v) d
  | none => d

theorem lookupAssoc_addTotal_self (m : List (String × JsVal)) (k : String) (d : JsVal) :
    lookupAssoc (addTotal m k d) k = some (bumpVal (lookupAssoc m k) d) := by
  cases h : lookupAssoc m k <;>
    simp [addTotal, bumpVal, h, lookupAssoc_setAssoc_self]

theorem lookupAssoc_addTotal_ne (m : List (String × JsVal)) (k : String) (d : JsVal)
    (k' : String) (h : k' ≠ k) :
    lookupAssoc (addTotal m k d) k' = lookupAssoc m k' := by
  cases hm : lookupAssoc m k <;>
    simp [addTotal, hm, lookupAssoc_setAssoc_ne _ _ _ _ h]

/-- Sum of a totals map, defined only when every stored value is a finite
number. -/
def qSumOk : List (String × JsVal) → Option ℤ
  | [] => some 0
  | (_, .num q) :: rest => (qSumOk rest).map fun s => q + s
  | (_, .nan) :: _ => none
  | (_, .undef) :: _ => none

theorem qSumOk_addTotal (k : String) (q : ℤ) :
    ∀ (m : List (String × JsVal)) (S : ℤ), qSumOk m = some S →
      qSumOk (addTotal m k (.num q)) = some (S + q) := by
  intro m
  induction m with
  | nil =>
    intro S hS
    simp [qSumOk] at hS
    simp [addTotal_nil, qSumOk, ← hS]
  | cons p rest ih =>
    intro S hS
    obtain ⟨k', v⟩ := p
    cases v with
    | num a =>
      simp [qSumOk] at hS
      obtain ⟨S', hS', rfl⟩ := hS
      by_cases h : k' = k
      · subst h
        simp [addTotal_cons_self, jsOr0_num, jsAdd, qSumOk, hS']
        ring
      · simp [addTotal_cons_ne _ _ _ _ _ h, qSumOk, ih S' hS']
        ring
    | nan => simp [qSumOk] at hS
    | undef => simp [qSumOk] at hS

/-! ### Characterization of one loop iteration -/

/-- One loop iteration succeeds exactly when the way lookup succeeds, the
way has a `tags` object, and both polyline-merge steps succeed; the
resulting collections are then fully determined. -/
theorem processItem_ok_iff (ways : List Way) (els : List Element) (st : AggState)
    (it : QueryItem) (st₁ : AggState) :
    processItem ways els st it = .ok st₁ ↔
      ∃ w t ip sp,
        findWay ways it.start it.end_ = some w ∧ w.tags = some t ∧
        updatePaths st.illuminatedPaths (classifyLit t.lit)
          (nodesById els it.start) (nodesById els it.end_) = .ok ip ∧
        updatePaths st.surfacePaths (classifySurface t.surface)
          (nodesById els it.start) (nodesById els it.end_) = .ok sp ∧
        st₁ = { surfaces := addTotal st.surfaces (classifySurface t.surface) (jsOfOpt it.distance),
                illuminated := addTotal st.illuminated (classifyLit t.lit) (jsOfOpt it.distance),
                surfacePaths := sp,
                illuminatedPaths := ip } := by
  constructor
  · intro h
    cases hf : findWay ways it.start it.end_ with
    | none => simp [processItem, hf] at h
    | some w =>
      cases ht : w.tags with
      | none => simp [processItem, hf, ht] at h
      | some t =>
        cases hu1 : updatePaths st.illuminatedPaths (classifyLit t.lit)
            (nodesById els it.start) (nodesById els it.end_) with
        | error e => simp [processItem, hf, ht, hu1] at h
        | ok ip =>
          cases hu2 : updatePaths st.surfacePaths (classifySurface t.surface)
              (nodesById els it.start) (nodesById els it.end_) with
          | error e => simp [processItem, hf, ht, hu1, hu2] at h
          | ok sp =>
            refine ⟨w, t, ip, sp, rfl, ht, hu1, hu2, ?_⟩
            simp [processItem, hf, ht, hu1, hu2] at h
            exact h.symm
  · rintro ⟨w, t, ip, sp, hf, ht, hu1, hu2, rfl⟩
    simp [processItem, hf, ht, hu1, hu2]

/-! ### The polyline-merge step -/

/-- The polyline list currently stored for a category (absent ↦ `[]`). -/
def pathsAt (m : PolysMap) (k : String) : List PolyPath :=
  (lookupAssoc m k).getD []

/-- The final coordinate of the most recently created polyline of a
category, when that polyline exists and its last point is a defined node. -/
def lastCoordOf (pls : List PolyPath) : Option (ℤ × ℤ) :=
  (lastPointOf pls).map fun n => (n.lat, n.lon)

/-- The polyline-merge step as the spec words it (§4.4 step 3): if the last
coordinate of the category's most recent polyline equals the edge's start
coordinate, append the end coordinate to that polyline, otherwise append a
new two-point polyline to the category's list. -/
def mergeStepSpec (paths : PolysMap) (key : String) (s : OsmNode)
    (e : Option OsmNode) : PolysMap :=
  let pls := pathsAt paths key
  match lastCoordOf pls with
  | some lc =>
    if lc = (s.lat, s.lon) then setAssoc paths key (extendLastPath pls e)
    else setAssoc paths key (pls ++ [[some s, e]])
  | none => setAssoc paths key (pls ++ [[some s, e]])

/-- When the edge's start node record exists, the code's merge step never
throws and agrees with the spec-worded merge step. -/
theorem updatePaths_some (paths : PolysMap) (key : String) (s : OsmNode)
    (e : Option OsmNode) :
    updatePaths paths key (some s) e = .ok (mergeStepSpec paths key s e) := by
  cases h : lookupAssoc paths key with
  | none => simp [updatePaths, mergeStepSpec, pathsAt, lastCoordOf, lastPointOf, h]
  | some pls =>
    cases hl : lastPointOf pls with
    | none => simp [updatePaths, mergeStepSpec, pathsAt, lastCoordOf, h, hl]
    | some lp =>
      by_cases hc : lp.lat = s.lat ∧ lp.lon = s.lon
      · simp [updatePaths, mergeStepSpec, pathsAt, lastCoordOf, h, hl, hc, Prod.ext_iff]
      · have hne : ¬((lp.lat, lp.lon) = (s.lat, s.lon)) := by
          simp only [Prod.mk.injEq]
          exact hc
        simp [updatePaths, mergeStepSpec, pathsAt, lastCoordOf, h, hl, hc, hne]

/-! ### Coordinate pairs of polylines -/

/-- The coordinate of a (possibly `undefined`) polyline point. -/
def coordOf : Option OsmNode → Option (ℤ × ℤ)
  | none => none
  | some n => some (n.lat, n.lon)

/-- Consecutive pairs of a list. -/
def consecPairs {α : Type} : List α → List (α × α)
  | [] => []
  | [_] => []
  | a :: b :: rest => (a, b) :: consecPairs (b :: rest)

/-- The consecutive coordinate pairs of one polyline. -/
def pathPairs (p : PolyPath) : List (Option (ℤ × ℤ) × Option (ℤ × ℤ)) :=
  consecPairs (p.map coordOf)

/-- The consecutive coordinate pairs of all polylines of one category. -/
def plsPairs (pls : List PolyPath) : List (Option (ℤ × ℤ) × Option (ℤ × ℤ)) :=
  (pls.map pathPairs).flatten

theorem consecPairs_append_single {α : Type} (x : α) :
    ∀ (l : List α) (y : α), l.getLast? = some y →
      consecPairs (l ++ [x]) = consecPairs l ++ [(y, x)] := by
  intro l
  induction l with
  | nil => intro y h; simp at h
  | cons a rest ih =>
    intro y h
    cases rest with
    | nil =>
      simp at h
      subst h
      simp [consecPairs]
    | cons b rest' =>
      have h' : (b :: rest').getLast? = some y := by
        simpa using h
      have : (a :: b :: rest') ++ [x] = a :: b :: (rest' ++ [x]) := by simp
      rw [this]
      have hbr : (b :: rest') ++ [x] = b :: (rest' ++ [x]) := by simp
      calc consecPairs (a :: b :: (rest' ++ [x]))
      _ = (a, b) :: consecPairs (b :: (rest' ++ [x])) := rfl
      _ = (a, b) :: (consecPairs (b :: rest') ++ [(y, x)]) := by rw [← hbr, ih _ h']
      _ = consecPairs (a :: b :: rest') ++ [(y, x)] := rfl

theorem plsPairs_extendLastPath (e : Option OsmNode) :
    ∀ (pls : List PolyPath) (p : PolyPath) (pt : Option OsmNode),
      pls.getLast? = some p → p.getLast? = some pt →
      plsPairs (extendLastPath pls e) = plsPairs pls ++ [(coordOf pt, coordOf e)] := by
  intro pls
  induction pls with
  | nil => intro p pt h _; simp at h
  | cons q rest ih =>
    intro p pt hlast hplast
    cases rest with
    | nil =>
      obtain rfl : q = p := by simpa using hlast
      show plsPairs [q ++ [e]] = plsPairs [q] ++ [(coordOf pt, coordOf e)]
      simp only [plsPairs, List.map_cons, List.map_nil, List.flatten_cons,
        List.flatten_nil, List.append_nil, pathPairs]
      rw [List.map_append]
      simp only [List.map_cons, List.map_nil]
      rw [consecPairs_append_single (coordOf e) (List.map coordOf q) (coordOf pt)
        (by rw [List.getLast?_map, hplast]; rfl)]
    | cons r rest' =>
      have hlast' : (r :: rest').getLast? = some p := by simpa using hlast
      have : extendLastPath (q :: r :: rest') e = q :: extendLastPath (r :: rest') e := rfl
      rw [this]
      have h1 : plsPairs (q :: extendLastPath (r :: rest') e) =
          pathPairs q ++ plsPairs (extendLastPath (r :: rest') e) := by
        simp [plsPairs]
      have h2 : plsPairs (q :: r :: rest') = pathPairs q ++ plsPairs (r :: rest') := by
        simp [plsPairs]
      rw [h1, h2, ih p pt hlast' hplast, List.append_assoc]

/-- One merge step appends exactly the edge's coordinate pair to its own
category's pairs and leaves every other category untouched. -/
theorem updatePaths_pairs (paths : PolysMap) (key : String)
    (s e : Option OsmNode) (m' : PolysMap)
    (h : updatePaths paths key s e = .ok m') :
    plsPairs (pathsAt m' key) = plsPairs (pathsAt paths key) ++ [(coordOf s, coordOf e)]
    ∧ ∀ k', k' ≠ key → pathsAt m' k' = pathsAt paths k' := by
  cases hlk : lookupAssoc paths key with
  | none =>
    simp only [updatePaths, hlk, Except.ok.injEq] at h
    subst h
    constructor
    · simp [pathsAt, hlk, lookupAssoc_setAssoc_self, plsPairs, pathPairs, coordOf, consecPairs]
    · intro k' hk'
      simp [pathsAt, lookupAssoc_setAssoc_ne _ _ _ _ hk']
  | some pls =>
    cases hjoin : lastPointOf pls with
    | none =>
      simp only [updatePaths, hlk, hjoin, Except.ok.injEq] at h
      subst h
      constructor
      · simp [pathsAt, hlk, lookupAssoc_setAssoc_self, plsPairs, pathPairs, coordOf, consecPairs]
      · intro k' hk'
        simp [pathsAt, lookupAssoc_setAssoc_ne _ _ _ _ hk']
    | some lp =>
      have hjoin' : (pls.getLast?.bind List.getLast?).join = some lp := hjoin
      obtain ⟨pp, hpls_last, hpp⟩ := Option.bind_eq_some.mp (Option.join_eq_some.mp hjoin')
      cases s with
      | none => simp [updatePaths, hlk, hjoin] at h
      | some sn =>
        by_cases hc : lp.lat = sn.lat ∧ lp.lon = sn.lon
        · simp only [updatePaths, hlk, hjoin, if_pos hc, Except.ok.injEq] at h
          subst h
          constructor
          · rw [show pathsAt (setAssoc paths key (extendLastPath pls e)) key
                = extendLastPath pls e by simp [pathsAt, lookupAssoc_setAssoc_self]]
            rw [show pathsAt paths key = pls by simp [pathsAt, hlk]]
            rw [plsPairs_extendLastPath e pls pp (some lp) hpls_last hpp]
            have : coordOf (some lp) = coordOf (some sn) := by
              simp [coordOf, hc.1, hc.2]
            rw [this]
          · intro k' hk'
            simp [pathsAt, lookupAssoc_setAssoc_ne _ _ _ _ hk']
        · simp only [updatePaths, hlk, hjoin, if_neg hc, Except.ok.injEq] at h
          subst h
          constructor
          · simp [pathsAt, hlk, lookupAssoc_setAssoc_self, plsPairs, pathPairs, coordOf, consecPairs]
          · intro k' hk'
            simp [pathsAt, lookupAssoc_setAssoc_ne _ _ _ _ hk']

/-! ### Run-level lemmas -/

/-- A way-lookup miss anywhere in the edge list makes the whole handler
abort with a `TypeError` (line 293 dereferences `undefined`). -/
theorem runItems_error_of_miss (ways : List Way) (els : List Element) :
    ∀ (items : List QueryItem) (st : AggState),
      (∃ it ∈ items, findWay ways it.start it.end_ = none) →
      runItems ways els st items = .error .typeError := by
  intro items
  induction items with
  | nil =>
    intro st h
    simp at h
  | cons it rest ih =>
    intro st h
    rw [runItems_cons]
    obtain ⟨it₀, hmem, hmiss⟩ := h
    rcases List.mem_cons.mp hmem with rfl | hmem'
    · simp [processItem, hmiss]
    · cases hp : processItem ways els st it with
      | error e => cases e; simp
      | ok st' => simpa using ih st' ⟨it₀, hmem', hmiss⟩

/-- An item on which the loop body cannot throw (the way is found, has a
`tags` object and the edge's start node record exists) and whose distance
was read in bounds. -/
def goodItem (ways : List Way) (els : List Element) (it : QueryItem) : Bool :=
  (match findWay ways it.start it.end_ with
   | some w => w.tags.isSome
   | none => false)
  && (nodesById els it.start).isSome
  && it.distance.isSome

theorem goodItem_iff (ways : List Way) (els : List Element) (it : QueryItem) :
    goodItem ways els it = true ↔
      (∃ w t, findWay ways it.start it.end_ = some w ∧ w.tags = some t)
      ∧ (∃ n, nodesById els it.start = some n) ∧ (∃ d, it.distance = some d) := by
  unfold goodItem
  cases hf : findWay ways it.start it.end_ <;>
    cases hn : nodesById els it.start <;>
      cases hd : it.distance <;>
        simp [hf, hn, hd, Option.isSome_iff_exists]

/-- On a good item the loop body succeeds, with the state described by
`processItem_ok_iff` and the merge steps given by `mergeStepSpec`. -/
theorem processItem_ok_of_good (ways : List Way) (els : List Element)
    (st : AggState) (it : QueryItem) (h : goodItem ways els it = true) :
    ∃ st', processItem ways els st it = .ok st' := by
  obtain ⟨⟨w, t, hf, ht⟩, ⟨n, hn⟩, _⟩ := (goodItem_iff ways els it).mp h
  refine ⟨_, (processItem_ok_iff ways els st it _).mpr
    ⟨w, t, mergeStepSpec st.illuminatedPaths (classifyLit t.lit) n (nodesById els it.end_),
      mergeStepSpec st.surfacePaths (classifySurface t.surface) n (nodesById els it.end_),
      hf, ht, ?_, ?_, rfl⟩⟩
  · rw [hn]
    exact updatePaths_some _ _ _ _
  · rw [hn]
    exact updatePaths_some _ _ _ _

/-- A run over good items never aborts. -/
theorem runItems_ok_of_good (ways : List Way) (els : List Element) :
    ∀ (items : List QueryItem) (st : AggState),
      (∀ it ∈ items, goodItem ways els it = true) →
      ∃ st', runItems ways els st items = .ok st' := by
  intro items
  induction items with
  | nil =>
    intro st _
    exact ⟨st, rfl⟩
  | cons it rest ih =>
    intro st hg
    obtain ⟨st₁, hst₁⟩ := processItem_ok_of_good ways els st it (hg it (by simp))
    obtain ⟨st', hst'⟩ := ih st₁ fun it' h' => hg it' (by simp [h'])
    exact ⟨st', by rw [runItems_cons, hst₁]; exact hst'⟩

/-! ### Totals: global sum and per-key characterization -/

/-- The sum of the distances actually read for a list of items. -/
def sumD (items : List QueryItem) : ℤ :=
  (items.filterMap QueryItem.distance).sum

/-- Each successful iteration adds the item's distance to the sum of each
axis's totals map. -/
theorem runItems_qSumOk (ways : List Way) (els : List Element) :
    ∀ (items : List QueryItem) (st st' : AggState) (Ss Si : ℤ),
      (∀ it ∈ items, it.distance.isSome = true) →
      runItems ways els st items = .ok st' →
      qSumOk st.surfaces = some Ss → qSumOk st.illuminated = some Si →
      qSumOk st'.surfaces = some (Ss + sumD items) ∧
      qSumOk st'.illuminated = some (Si + sumD items) := by
  intro items
  induction items with
  | nil =>
    intro st st' Ss Si _ hrun hs hi
    rw [runItems_nil] at hrun
    cases hrun
    simp [sumD, hs, hi]
  | cons it rest ih =>
    intro st st' Ss Si hd hrun hs hi
    rw [runItems_cons] at hrun
    cases hp : processItem ways els st it with
    | error e =>
      rw [hp] at hrun
      simp at hrun
    | ok st₁ =>
      rw [hp] at hrun
      simp only at hrun
      obtain ⟨w, t, ip, sp, hf, ht, hu1, hu2, rfl⟩ :=
        (processItem_ok_iff ways els st it st₁).mp hp
      obtain ⟨d, hd₀⟩ := Option.isSome_iff_exists.mp (hd it (by simp))
      have h1 : qSumOk (addTotal st.surfaces (classifySurface t.surface)
          (jsOfOpt it.distance)) = some (Ss + d) := by
        rw [hd₀]
        exact qSumOk_addTotal _ _ _ _ hs
      have h2 : qSumOk (addTotal st.illuminated (classifyLit t.lit)
          (jsOfOpt it.distance)) = some (Si + d) := by
        rw [hd₀]
        exact qSumOk_addTotal _ _ _ _ hi
      have hrest := ih _ st' (Ss + d) (Si + d)
        (fun it' h' => hd it' (by simp [h'])) hrun h1 h2
      have hsum : sumD (it :: rest) = d + sumD rest := by
        simp [sumD, List.filterMap_cons, hd₀]
      refine ⟨?_, ?_⟩
      · rw [hrest.1, hsum]
        congr 1
        ring
      · rw [hrest.2, hsum]
        congr 1
        ring

/-- The surface category an item is classified into, when its way lookup
and tag access succeed. -/
def surfKeyOf (ways : List Way) (it : QueryItem) : Option String :=
  match findWay ways it.start it.end_ with
  | some w => w.tags.map fun t => classifySurface t.surface
  | none => none

/-- The illumination category an item is classified into, when its way
lookup and tag access succeed. -/
def litKeyOf (ways : List Way) (it : QueryItem) : Option String :=
  match findWay ways it.start it.end_ with
  | some w => w.tags.map fun t => classifyLit t.lit
  | none => none

/-- The distances of the items classified into category `k`. -/
def distsFor (keyOf : QueryItem → Option String) (items : List QueryItem)
    (k : String) : List ℤ :=
  items.filterMap fun it => if keyOf it = some k then it.distance else none

/-- Repeated `addTotal` on one key, seen from that key's stored value. -/
def foldNum (o : Option JsVal) (ds : List ℤ) : Option JsVal :=
  ds.foldl (fun o' d => some (bumpVal o' (.num d))) o

theorem bumpVal_some_num (a d : ℤ) :
    bumpVal (some (.num a)) (.num d) = .num (a + d) := by
  simp [bumpVal, jsOr0_num, jsAdd]

theorem foldNum_num (ds : List ℤ) :
    ∀ a : ℤ, foldNum (some (.num a)) ds = some (.num (a + ds.sum)) := by
  induction ds with
  | nil =>
    intro a
    simp [foldNum]
  | cons d rest ih =>
    intro a
    show foldNum (some (bumpVal (some (.num a)) (.num d))) rest = _
    rw [bumpVal_some_num, ih (a + d)]
    simp only [List.sum_cons]
    congr 2
    ring

theorem foldNum_none (ds : List ℤ) :
    foldNum none ds = if ds.isEmpty then none else some (.num ds.sum) := by
  cases ds with
  | nil => rfl
  | cons d rest =>
    show foldNum (some (bumpVal none (.num d))) rest = _
    have : bumpVal none (.num d) = .num d := rfl
    rw [this, foldNum_num]
    simp

theorem foldNum_none_reverse (ds : List ℤ) :
    foldNum none ds.reverse = foldNum none ds := by
  rw [foldNum_none, foldNum_none, List.sum_reverse]
  cases ds <;> simp

/-- Per-key characterization of both totals maps after a successful run:
each key's value results from folding the distances of the items
classified into that key. -/
theorem runItems_lookupTotals (ways : List Way) (els : List Element) :
    ∀ (items : List QueryItem) (st st' : AggState),
      (∀ it ∈ items, it.distance.isSome = true) →
      runItems ways els st items = .ok st' →
      ∀ k, lookupAssoc st'.surfaces k =
              foldNum (lookupAssoc st.surfaces k) (distsFor (surfKeyOf ways) items k)
          ∧ lookupAssoc st'.illuminated k =
              foldNum (lookupAssoc st.illuminated k) (distsFor (litKeyOf ways) items k) := by
  intro items
  induction items with
  | nil =>
    intro st st' _ hrun k
    rw [runItems_nil] at hrun
    cases hrun
    simp [distsFor, foldNum]
  | cons it rest ih =>
    intro st st' hd hrun k
    rw [runItems_cons] at hrun
    cases hp : processItem ways els st it with
    | error e =>
      rw [hp] at hrun
      simp at hrun
    | ok st₁ =>
      rw [hp] at hrun
      simp only at hrun
      obtain ⟨w, t, ip, sp, hf, ht, hu1, hu2, rfl⟩ :=
        (processItem_ok_iff ways els st it st₁).mp hp
      obtain ⟨d, hd₀⟩ := Option.isSome_iff_exists.mp (hd it (by simp))
      have hkey_s : surfKeyOf ways it = some (classifySurface t.surface) := by
        simp [surfKeyOf, hf, ht]
      have hkey_l : litKeyOf ways it = some (classifyLit t.lit) := by
        simp [litKeyOf, hf, ht]
      have hrest := ih _ st' (fun it' h' => hd it' (by simp [h'])) hrun k
      refine ⟨?_, ?_⟩
      · rw [hrest.1]
        by_cases hk : classifySurface t.surface = k
        · subst hk
          rw [show distsFor (surfKeyOf ways) (it :: rest) (classifySurface t.surface)
              = d :: distsFor (surfKeyOf ways) rest (classifySurface t.surface) by
            simp [distsFor, List.filterMap_cons, hkey_s, hd₀]]
          show foldNum _ _ = foldNum (some (bumpVal _ _)) _
          rw [lookupAssoc_addTotal_self, hd₀]
          rfl
        · rw [show distsFor (surfKeyOf ways) (it :: rest) k
              = distsFor (surfKeyOf ways) rest k by
            simp [distsFor, List.filterMap_cons, hkey_s, hk]]
          rw [lookupAssoc_addTotal_ne _ _ _ _ (Ne.symm hk)]
      · rw [hrest.2]
        by_cases hk : classifyLit t.lit = k
        · subst hk
          rw [show distsFor (litKeyOf ways) (it :: rest) (classifyLit t.lit)
              = d :: distsFor (litKeyOf ways) rest (classifyLit t.lit) by
            simp [distsFor, List.filterMap_cons, hkey_l, hd₀]]
          show foldNum _ _ = foldNum (some (bumpVal _ _)) _
          rw [lookupAssoc_addTotal_self, hd₀]
          rfl
        · rw [show distsFor (litKeyOf ways) (it :: rest) k
              = distsFor (litKeyOf ways) rest k by
            simp [distsFor, List.filterMap_cons, hkey_l, hk]]
          rw [lookupAssoc_addTotal_ne _ _ _ _ (Ne.symm hk)]

/-! ### Polyline pairs after a run -/

/-- The coordinate pair an item contributes: its start and end node
coordinates as looked up in the answer's node records. -/
def itemPair (els : List Element) (it : QueryItem) :
    Option (ℤ × ℤ) × Option (ℤ × ℤ) :=
  (coordOf (nodesById els it.start), coordOf (nodesById els it.end_))

/-- After a successful run, each category's polyline coordinate pairs are
exactly the coordinate pairs of the items classified into it, in order. -/
theorem runItems_pairs (ways : List Way) (els : List Element) :
    ∀ (items : List QueryItem) (st st' : AggState),
      runItems ways els st items = .ok st' →
      ∀ k, plsPairs (pathsAt st'.surfacePaths k)
            = plsPairs (pathsAt st.surfacePaths k)
              ++ ((items.filter fun it => surfKeyOf ways it = some k).map (itemPair els))
         ∧ plsPairs (pathsAt st'.illuminatedPaths k)
            = plsPairs (pathsAt st.illuminatedPaths k)
              ++ ((items.filter fun it => litKeyOf ways it = some k).map (itemPair els)) := by
  intro items
  induction items with
  | nil =>
    intro st st' hrun k
    rw [runItems_nil] at hrun
    cases hrun
    simp
  | cons it rest ih =>
    intro st st' hrun k
    rw [runItems_cons] at hrun
    cases hp : processItem ways els st it with
    | error e =>
      rw [hp] at hrun
      simp at hrun
    | ok st₁ =>
      rw [hp] at hrun
      simp only at hrun
      obtain ⟨w, t, ip, sp, hf, ht, hu1, hu2, rfl⟩ :=
        (processItem_ok_iff ways els st it st₁).mp hp
      have hkey_s : surfKeyOf ways it = some (classifySurface t.surface) := by
        simp [surfKeyOf, hf, ht]
      have hkey_l : litKeyOf ways it = some (classifyLit t.lit) := by
        simp [litKeyOf, hf, ht]
      have hpair_s := updatePaths_pairs _ _ _ _ _ hu2
      have hpair_l := updatePaths_pairs _ _ _ _ _ hu1
      have hrest := ih _ st' hrun k
      refine ⟨?_, ?_⟩
      · rw [hrest.1]
        dsimp only
        by_cases hk : classifySurface t.surface = k
        · subst hk
          rw [hpair_s.1]
          rw [show (it :: rest).filter
                (fun it' => surfKeyOf ways it' = some (classifySurface t.surface))
              = it :: rest.filter
                (fun it' => surfKeyOf ways it' = some (classifySurface t.surface)) by
            simp [List.filter_cons, hkey_s]]
          simp [itemPair]
        · rw [hpair_s.2 k (Ne.symm hk)]
          rw [show (it :: rest).filter (fun it' => surfKeyOf ways it' = some k)
              = rest.filter (fun it' => surfKeyOf ways it' = some k) by
            simp [List.filter_cons, hkey_s, hk]]
      · rw [hrest.2]
        dsimp only
        by_cases hk : classifyLit t.lit = k
        · subst hk
          rw [hpair_l.1]
          rw [show (it :: rest).filter
                (fun it' => litKeyOf ways it' = some (classifyLit t.lit))
              = it :: rest.filter
                (fun it' => litKeyOf ways it' = some (classifyLit t.lit)) by
            simp [List.filter_cons, hkey_l]]
          simp [itemPair]
        · rw [hpair_l.2 k (Ne.symm hk)]
          rw [show (it :: rest).filter (fun it' => litKeyOf ways it' = some k)
              = rest.filter (fun it' => litKeyOf ways it' = some k) by
            simp [List.filter_cons, hkey_l, hk]]

/-! ### Axis views and non-interference -/

/-- The illumination-axis outputs of a run (totals and polylines), or the
abort if the run threw. -/
def illumView (r : Except JsError AggState) :
    Except JsError (List (String × JsVal) × PolysMap) :=
  r.map fun st => (st.illuminated, st.illuminatedPaths)

/-- The surface-axis outputs of a run (totals and polylines), or the abort
if the run threw. -/
def surfView (r : Except JsError AggState) :
    Except JsError (List (String × JsVal) × PolysMap) :=
  r.map fun st => (st.surfaces, st.surfacePaths)

/-- `ways.find` gives corresponding results on pointwise related way lists
whose node membership lists agree. -/
theorem findWay_rel {R : Way → Way → Prop}
    (hR : ∀ w₁ w₂, R w₁ w₂ → w₁.nodes = w₂.nodes)
    (ways₁ ways₂ : List Way) (h : List.Forall₂ R ways₁ ways₂) (s e : Int) :
    (findWay ways₁ s e = none ∧ findWay ways₂ s e = none) ∨
    (∃ w₁ w₂, findWay ways₁ s e = some w₁ ∧ findWay ways₂ s e = some w₂ ∧ R w₁ w₂) := by
  induction h with
  | nil =>
    left
    exact ⟨rfl, rfl⟩
  | cons hr hrest ih =>
    rename_i a₁ a₂ l₁ l₂
    have hnodes := hR _ _ hr
    by_cases hp : s ∈ a₁.nodes ∧ e ∈ a₁.nodes
    · right
      have hps : s ∈ a₂.nodes := hnodes ▸ hp.1
      have hpe : e ∈ a₂.nodes := hnodes ▸ hp.2
      refine ⟨a₁, a₂, ?_, ?_, hr⟩
      · simp [findWay, List.find?, hp.1, hp.2]
      · simp [findWay, List.find?, hps, hpe]
    · have hfalse₁ : (decide (s ∈ a₁.nodes) && decide (e ∈ a₁.nodes)) = false := by
        by_cases h1 : s ∈ a₁.nodes
        · have h2 : e ∉ a₁.nodes := fun h2 => hp ⟨h1, h2⟩
          simp [h1, h2]
        · simp [h1]
      have hfalse₂ : (decide (s ∈ a₂.nodes) && decide (e ∈ a₂.nodes)) = false := by
        rw [← hnodes]
        exact hfalse₁
      have e₁ : findWay (a₁ :: l₁) s e = findWay l₁ s e := by
        simp [findWay, List.find?, hfalse₁]
      have e₂ : findWay (a₂ :: l₂) s e = findWay l₂ s e := by
        simp [findWay, List.find?, hfalse₂]
      rw [e₁, e₂]
      exact ih

/-- Pointwise relation: same node lists, and agreement on illumination at
the tags-object level — the presence of the `tags` object and its `lit`
field coincide (`some none` is a tags object without `lit`, `none` is no
tags object). This is strictly stronger than agreement of the flattened
lit value: a way with no tags object throws at line 293 while a way whose
tags object merely lacks `lit` completes, so the two cases genuinely
differ (see the C10 counterexample). -/
def litRel (w₁ w₂ : Way) : Prop :=
  w₁.nodes = w₂.nodes ∧ w₁.tags.map WayTags.lit = w₂.tags.map WayTags.lit

/-- Pointwise relation: same node lists, and agreement on surface at the
tags-object level, with the same caveat as `litRel` for ways whose tags
object is absent. -/
def surfRel (w₁ w₂ : Way) : Prop :=
  w₁.nodes = w₂.nodes ∧ w₁.tags.map WayTags.surface = w₂.tags.map WayTags.surface

/-- When the edges' start node records all exist, the illumination outputs
depend only on the ways' node lists and illumination tags. -/
theorem runItems_illum_view (els : List Element) :
    ∀ (items : List QueryItem) (ways₁ ways₂ : List Way) (st₁ st₂ : AggState),
      List.Forall₂ litRel ways₁ ways₂ →
      (∀ it ∈ items, (nodesById els it.start).isSome = true) →
      st₁.illuminated = st₂.illuminated →
      st₁.illuminatedPaths = st₂.illuminatedPaths →
      illumView (runItems ways₁ els st₁ items) =
        illumView (runItems ways₂ els st₂ items) := by
  intro items
  induction items with
  | nil =>
    intro ways₁ ways₂ st₁ st₂ _ _ hill hillp
    rw [runItems_nil, runItems_nil]
    simp [illumView, Except.map, hill, hillp]
  | cons it rest ih =>
    intro ways₁ ways₂ st₁ st₂ hrel hstart hill hillp
    rcases findWay_rel (fun _ _ h => h.1) ways₁ ways₂ hrel it.start it.end_ with
      ⟨hn₁, hn₂⟩ | ⟨w₁, w₂, hf₁, hf₂, hw⟩
    · rw [runItems_cons, runItems_cons]
      simp [processItem, hn₁, hn₂, illumView]
    · obtain ⟨n, hn⟩ := Option.isSome_iff_exists.mp (hstart it (by simp))
      cases ht₁ : w₁.tags with
      | none =>
        have ht₂ : w₂.tags = none := by
          have hmap := hw.2
          rw [ht₁] at hmap
          simpa using hmap.symm
        rw [runItems_cons, runItems_cons]
        simp [processItem, hf₁, hf₂, ht₁, ht₂, illumView]
      | some t₁ =>
        obtain ⟨t₂, ht₂, hlit⟩ : ∃ t₂, w₂.tags = some t₂ ∧ t₁.lit = t₂.lit := by
          have hmap := hw.2
          rw [ht₁] at hmap
          cases htt : w₂.tags with
          | none =>
            rw [htt] at hmap
            simp at hmap
          | some t₂ =>
            rw [htt] at hmap
            simp at hmap
            exact ⟨t₂, rfl, hmap⟩
        have hcl : classifyLit t₁.lit = classifyLit t₂.lit := by rw [hlit]
        have hup1 : updatePaths st₁.illuminatedPaths (classifyLit t₁.lit)
            (nodesById els it.start) (nodesById els it.end_)
            = .ok (mergeStepSpec st₁.illuminatedPaths (classifyLit t₁.lit) n
                (nodesById els it.end_)) := by
          rw [hn]
          exact updatePaths_some _ _ _ _
        have hup2 : updatePaths st₂.illuminatedPaths (classifyLit t₂.lit)
            (nodesById els it.start) (nodesById els it.end_)
            = .ok (mergeStepSpec st₂.illuminatedPaths (classifyLit t₂.lit) n
                (nodesById els it.end_)) := by
          rw [hn]
          exact updatePaths_some _ _ _ _
        have hus1 : updatePaths st₁.surfacePaths (classifySurface t₁.surface)
            (nodesById els it.start) (nodesById els it.end_)
            = .ok (mergeStepSpec st₁.surfacePaths (classifySurface t₁.surface) n
                (nodesById els it.end_)) := by
          rw [hn]
          exact updatePaths_some _ _ _ _
        have hus2 : updatePaths st₂.surfacePaths (classifySurface t₂.surface)
            (nodesById els it.start) (nodesById els it.end_)
            = .ok (mergeStepSpec st₂.surfacePaths (classifySurface t₂.surface) n
                (nodesById els it.end_)) := by
          rw [hn]
          exact updatePaths_some _ _ _ _
        rw [runItems_cons, runItems_cons]
        simp only [processItem, hf₁, hf₂, ht₁, ht₂, hup1, hup2, hus1, hus2]
        apply ih _ _ _ _ hrel (fun it' h' => hstart it' (by simp [h']))
        · dsimp only
          rw [hill, hcl]
        · dsimp only
          rw [hillp, hcl]

/-- When the edges' start node records all exist, the surface outputs
depend only on the ways' node lists and surface tags. -/
theorem runItems_surf_view (els : List Element) :
    ∀ (items : List QueryItem) (ways₁ ways₂ : List Way) (st₁ st₂ : AggState),
      List.Forall₂ surfRel ways₁ ways₂ →
      (∀ it ∈ items, (nodesById els it.start).isSome = true) →
      st₁.surfaces = st₂.surfaces →
      st₁.surfacePaths = st₂.surfacePaths →
      surfView (runItems ways₁ els st₁ items) =
        surfView (runItems ways₂ els st₂ items) := by
  intro items
  induction items with
  | nil =>
    intro ways₁ ways₂ st₁ st₂ _ _ hsur hsurp
    rw [runItems_nil, runItems_nil]
    simp [surfView, Except.map, hsur, hsurp]
  | cons it rest ih =>
    intro ways₁ ways₂ st₁ st₂ hrel hstart hsur hsurp
    rcases findWay_rel (fun _ _ h => h.1) ways₁ ways₂ hrel it.start it.end_ with
      ⟨hn₁, hn₂⟩ | ⟨w₁, w₂, hf₁, hf₂, hw⟩
    · rw [runItems_cons, runItems_cons]
      simp [processItem, hn₁, hn₂, surfView]
    · obtain ⟨n, hn⟩ := Option.isSome_iff_exists.mp (hstart it (by simp))
      cases ht₁ : w₁.tags with
      | none =>
        have ht₂ : w₂.tags = none := by
          have hmap := hw.2
          rw [ht₁] at hmap
          simpa using hmap.symm
        rw [runItems_cons, runItems_cons]
        simp [processItem, hf₁, hf₂, ht₁, ht₂, surfView]
      | some t₁ =>
        obtain ⟨t₂, ht₂, hsurf⟩ : ∃ t₂, w₂.tags = some t₂ ∧ t₁.surface = t₂.surface := by
          have hmap := hw.2
          rw [ht₁] at hmap
          cases htt : w₂.tags with
          | none =>
            rw [htt] at hmap
            simp at hmap
          | some t₂ =>
            rw [htt] at hmap
            simp at hmap
            exact ⟨t₂, rfl, hmap⟩
        have hcs : classifySurface t₁.surface = classifySurface t₂.surface := by rw [hsurf]
        have hup1 : updatePaths st₁.illuminatedPaths (classifyLit t₁.lit)
            (nodesById els it.start) (nodesById els it.end_)
            = .ok (mergeStepSpec st₁.illuminatedPaths (classifyLit t₁.lit) n
                (nodesById els it.end_)) := by
          rw [hn]
          exact updatePaths_some _ _ _ _
        have hup2 : updatePaths st₂.illuminatedPaths (classifyLit t₂.lit)
            (nodesById els it.start) (nodesById els it.end_)
            = .ok (mergeStepSpec st₂.illuminatedPaths (classifyLit t₂.lit) n
                (nodesById els it.end_)) := by
          rw [hn]
          exact updatePaths_some _ _ _ _
        have hus1 : updatePaths st₁.surfacePaths (classifySurface t₁.surface)
            (nodesById els it.start) (nodesById els it.end_)
            = .ok (mergeStepSpec st₁.surfacePaths (classifySurface t₁.surface) n
                (nodesById els it.end_)) := by
          rw [hn]
          exact updatePaths_some _ _ _ _
        have hus2 : updatePaths st₂.surfacePaths (classifySurface t₂.surface)
            (nodesById els it.start) (nodesById els it.end_)
            = .ok (mergeStepSpec st₂.surfacePaths (classifySurface t₂.surface) n
                (nodesById els it.end_)) := by
          rw [hn]
          exact updatePaths_some _ _ _ _
        rw [runItems_cons, runItems_cons]
        simp only [processItem, hf₁, hf₂, ht₁, ht₂, hup1, hup2, hus1, hus2]
        apply ih _ _ _ _ hrel (fun it' h' => hstart it' (by simp [h']))
        · dsimp only
          rw [hsur, hcs]
        · dsimp only
          rw [hsurp, hcs]

/-! ### Counting polylines that contain a coordinate pair -/

/-- Number of entries of `L` whose `f`-image contains `x`. -/
def countPolysWith {α β : Type} [DecidableEq α] (f : β → List α) (L : List β)
    (x : α) : ℕ :=
  L.countP fun p => x ∈ f p

/-- The number of polylines of a category in which a coordinate pair occurs
as consecutive coordinates. -/
def polysContaining (pls : List PolyPath)
    (pr : Option (ℤ × ℤ) × Option (ℤ × ℤ)) : ℕ :=
  countPolysWith pathPairs pls pr

theorem countP_mem_of_count_flatten_zero {α β : Type} [DecidableEq α]
    (x : α) (f : β → List α) (L : List β)
    (h : ((L.map f).flatten).count x = 0) :
    countPolysWith f L x = 0 := by
  unfold countPolysWith
  rw [List.countP_eq_zero]
  intro p hp
  have hx := List.count_eq_zero.mp h
  simp only [decide_eq_true_eq]
  intro hmem
  exact hx (List.mem_flatten_of_mem (List.mem_map_of_mem f hp) hmem)

theorem countP_mem_of_count_flatten_one {α β : Type} [DecidableEq α]
    (x : α) (f : β → List α) :
    ∀ L : List β, ((L.map f).flatten).count x = 1 →
      countPolysWith f L x = 1 := by
  intro L
  induction L with
  | nil =>
    intro h
    simp at h
  | cons p t ih =>
    intro h
    rw [List.map_cons, List.flatten_cons, List.count_append] at h
    unfold countPolysWith
    rw [List.countP_cons]
    cases hcl : List.count x (f p) with
    | zero =>
      have hnot : x ∉ f p := List.count_eq_zero.mp hcl
      have ht : ((t.map f).flatten).count x = 1 := by omega
      have hrec := ih ht
      unfold countPolysWith at hrec
      simp [hnot, hrec]
    | succ c =>
      have hmem : x ∈ f p := by
        have hpos : 0 < List.count x (f p) := by omega
        exact List.count_pos_iff.mp hpos
      have ht0 : ((t.map f).flatten).count x = 0 := by omega
      have hrec := countP_mem_of_count_flatten_zero x f t ht0
      unfold countPolysWith at hrec
      simp [hmem, hrec]

/-- `List.count` facts re-stated over a `DecidableEq` carrier, so every
count in this development elaborates with one single `BEq` instance. -/
theorem count_le_of_sublist_deq {α : Type} [DecidableEq α] {l₁ l₂ : List α}
    (h : l₁.Sublist l₂) (x : α) : l₁.count x ≤ l₂.count x :=
  h.count_le x

theorem count_pos_of_mem_deq {α : Type} [DecidableEq α] {x : α} {l : List α}
    (h : x ∈ l) : 1 ≤ l.count x :=
  List.count_pos_iff.mpr h

theorem count_nodup_mem_deq {α : Type} [DecidableEq α] {x : α} {l : List α}
    (hnd : l.Nodup) (h : x ∈ l) : l.count x = 1 :=
  List.count_eq_one_of_mem hnd h

theorem count_zero_of_not_mem_deq {α : Type} [DecidableEq α] {x : α}
    {l : List α} (h : x ∉ l) : l.count x = 0 :=
  List.count_eq_zero.mpr h

/-! ### Structure of the extracted edge list -/

theorem filterMap_guard_eq_map {α : Type} (f : ℕ → α) (m : ℕ) :
    ∀ l : List ℕ, (∀ i ∈ l, i < m) →
      (l.filterMap fun i => if i < m then some (f i) else none) = l.map f := by
  intro l
  induction l with
  | nil =>
    intro
    rfl
  | cons a t ih =>
    intro h
    rw [List.filterMap_cons, if_pos (h a (by simp))]
    rw [ih fun i hi => h i (by simp [hi])]
    rfl

theorem filterMap_range_guard {α : Type} (f : ℕ → α) :
    ∀ (n m : ℕ), m ≤ n →
      ((List.range n).filterMap fun i => if i < m then some (f i) else none)
        = (List.range m).map f := by
  intro n
  induction n with
  | zero =>
    intro m hm
    obtain rfl : m = 0 := Nat.le_zero.mp hm
    rfl
  | succ n ih =>
    intro m hm
    by_cases hmn : m ≤ n
    · rw [List.range_succ, List.filterMap_append, ih m hmn]
      have hlast : ([n].filterMap fun i => if i < m then some (f i) else none) = [] := by
        simp [Nat.not_lt.mpr hmn]
      rw [hlast, List.append_nil]
    · obtain rfl : m = n + 1 := Nat.le_antisymm hm (Nat.not_le.mp hmn)
      exact filterMap_guard_eq_map f (n + 1) (List.range (n + 1))
        fun i hi => List.mem_range.mp hi

/-- The extracted edge list, written as a map over the edge indices. -/
theorem mkQueryItems_eq_map (nodes : List Int) (distances : List ℤ) :
    mkQueryItems nodes distances = (List.range (nodes.length - 1)).map fun i =>
      { distance := distances[i]?, start := nodes.getD i 0,
        end_ := nodes.getD (i + 1) 0 } := by
  unfold mkQueryItems
  exact filterMap_range_guard _ nodes.length (nodes.length - 1)
    (Nat.sub_le _ _)

theorem range_filterMap_getElem {α : Type} : ∀ l : List α,
    ((List.range l.length).filterMap fun i => l[i]?) = l := by
  intro l
  induction l with
  | nil => rfl
  | cons a t ih =>
    rw [List.length_cons, List.range_succ_eq_map, List.filterMap_cons]
    rw [List.filterMap_map]
    have : ((fun i => (a :: t)[i]?) ∘ Nat.succ) = fun i => t[i]? := by
      funext i
      simp
    rw [this, ih]
    simp

/-- With a consistent distance array, the extracted items carry exactly the
distance array's entries. -/
theorem mkQueryItems_distances (nodes : List Int) (distances : List ℤ)
    (hlen : distances.length = nodes.length - 1) :
    (mkQueryItems nodes distances).filterMap QueryItem.distance = distances := by
  rw [mkQueryItems_eq_map, List.filterMap_map]
  have : (QueryItem.distance ∘ fun i =>
      ({ distance := distances[i]?, start := nodes.getD i 0,
         end_ := nodes.getD (i + 1) 0 } : QueryItem)) = fun i => distances[i]? := by
    funext i
    rfl
  rw [this, ← hlen]
  exact range_filterMap_getElem distances

/-- With a consistent distance array, every extracted item has a defined
distance. -/
theorem mkQueryItems_isSome (nodes : List Int) (distances : List ℤ)
    (hlen : distances.length = nodes.length - 1) :
    ∀ it ∈ mkQueryItems nodes distances, it.distance.isSome = true := by
  rw [mkQueryItems_eq_map]
  intro it hit
  obtain ⟨i, hi, rfl⟩ := List.mem_map.mp hit
  have hilt : i < distances.length := by
    rw [hlen]
    exact List.mem_range.mp hi
  simp [List.getElem?_eq_getElem hilt]

/-- A route with fewer than two nodes yields no edges. -/
theorem mkQueryItems_short (nodes : List Int) (distances : List ℤ)
    (h : nodes.length < 2) : mkQueryItems nodes distances = [] := by
  rw [mkQueryItems_eq_map]
  have : nodes.length - 1 = 0 := by omega
  rw [this]
  rfl

/-! ### Lookup step lemmas for the first-match policy -/

theorem findWay_cons_pos (a : Way) (t : List Way) (s e : Int)
    (h1 : s ∈ a.nodes) (h2 : e ∈ a.nodes) : findWay (a :: t) s e = some a := by
  simp [findWay, List.find?, h1, h2]

theorem findWay_cons_neg (a : Way) (t : List Way) (s e : Int)
    (h : ¬(s ∈ a.nodes ∧ e ∈ a.nodes)) : findWay (a :: t) s e = findWay t s e := by
  have hfalse : (decide (s ∈ a.nodes) && decide (e ∈ a.nodes)) = false := by
    by_cases h1 : s ∈ a.nodes
    · have h2 : e ∉ a.nodes := fun h2 => h ⟨h1, h2⟩
      simp [h1, h2]
    · simp [h1]
  simp [findWay, List.find?, hfalse]

/-! ### Claim theorems -/

/-- C1 counterexample: for the route 1→2 with one edge of distance 5 and a
fetched batch containing both node records but no way, the aggregation does
not classify the edge "Unknown" — it aborts with a `TypeError` (line 293
dereferences the `undefined` result of `ways.find`), publishing no totals
and no polylines. -/
theorem c1_counterexample :
    calculateRouteSurface [1, 2] [5] [.nodeEl ⟨1, 0, 0⟩, .nodeEl ⟨2, 1, 1⟩]
      = .error .typeError := rfl

/-- C1 (amended): if any route edge's node pair is contained in no way of
the fetched batch, the aggregation run aborts with a `TypeError` and
produces no result at all — it does not classify the edge "Unknown" and
does not complete. -/
theorem c1_amended (nodes : List Int) (distances : List ℤ) (els : List Element)
    (h : ∃ it ∈ mkQueryItems nodes distances,
      findWay (waysOf els) it.start it.end_ = none) :
    calculateRouteSurface nodes distances els = .error .typeError :=
  runItems_error_of_miss (waysOf els) els (mkQueryItems nodes distances) initAgg h

theorem c1_amended_witness :
    calculateRouteSurface [1, 2] [5] [.nodeEl ⟨3, 2, 2⟩] = .error .typeError :=
  c1_amended [1, 2] [5] [.nodeEl ⟨3, 2, 2⟩]
    ⟨⟨some 5, 1, 2⟩, by decide, by decide⟩

/-- C2 counterexample: for 2 nodes with an empty distance array (length 0 ≠
N−1 = 1) the aggregation does not fail with any `MalformedRoute` error and
does not return empty totals and groups: it completes and returns non-empty
totals whose value is the JavaScript `undefined` read out of range, and a
non-empty polyline group. -/
theorem c2_counterexample :
    calculateRouteSurface [1, 2] []
      [.wayEl ⟨[1, 2], some ⟨none, none⟩⟩, .nodeEl ⟨1, 0, 0⟩, .nodeEl ⟨2, 1, 1⟩]
      = .ok { surfaces := [("Unbekannt", .undef)],
              illuminated := [("Unbekannt", .undef)],
              surfacePaths := [("Unbekannt", [[some ⟨1, 0, 0⟩, some ⟨2, 1, 1⟩]])],
              illuminatedPaths := [("Unbekannt", [[some ⟨1, 0, 0⟩, some ⟨2, 1, 1⟩]])] } :=
  rfl

/-- C2 (amended): the code performs no malformed-route validation and has
no `MalformedRoute` error. When the node sequence has fewer than 2 nodes,
the edge list is empty and aggregation returns the empty collections
without error; when the distance array is shorter than N−1, aggregation
proceeds and produces partial results with `undefined`-contaminated totals
(see the counterexample). -/
theorem c2_amended (nodes : List Int) (distances : List ℤ) (els : List Element)
    (h : nodes.length < 2) :
    calculateRouteSurface nodes distances els = .ok initAgg := by
  unfold calculateRouteSurface
  rw [mkQueryItems_short nodes distances h]
  rfl

theorem c2_amended_witness :
    ([7] : List Int).length < 2 ∧ calculateRouteSurface [7] [] [] = .ok initAgg :=
  ⟨by decide, c2_amended [7] [] [] (by decide)⟩

/-- C4: for every edge (with an existing start node record) and each axis,
the merge step extends the most recently created polyline of the edge's
category exactly when that polyline's last coordinate equals the edge's
start coordinate bit-for-bit (exact equality on both latitude and
longitude), and otherwise appends the new two-point polyline `[start, end]`
to the category's list — `mergeStepSpec` is that case distinction verbatim,
and the code's step `updatePaths` provably matches it. -/
theorem c4_polyline_merge (paths : PolysMap) (key : String) (s : OsmNode)
    (e : Option OsmNode) :
    updatePaths paths key (some s) e = .ok (mergeStepSpec paths key s e) :=
  updatePaths_some paths key s e

/-- C6: the way used to classify an edge is the first way, in the order
received, whose node membership list contains both the edge's start and
end node ids; if no way contains both, the lookup returns none. -/
theorem c6_first_way_wins (ways : List Way) (s e : Int) :
    (∀ w : Way, findWay ways s e = some w →
      (s ∈ w.nodes ∧ e ∈ w.nodes) ∧
      ∃ i : ℕ, ways[i]? = some w ∧
        ∀ j : ℕ, j < i → ∀ w' : Way, ways[j]? = some w' →
          ¬(s ∈ w'.nodes ∧ e ∈ w'.nodes))
    ∧ (findWay ways s e = none ↔ ∀ w ∈ ways, ¬(s ∈ w.nodes ∧ e ∈ w.nodes)) := by
  constructor
  · induction ways with
    | nil =>
      intro w hw
      simp [findWay] at hw
    | cons a t ih =>
      intro w hw
      by_cases hp : s ∈ a.nodes ∧ e ∈ a.nodes
      · rw [findWay_cons_pos a t s e hp.1 hp.2] at hw
        obtain rfl : a = w := Option.some.inj hw
        exact ⟨hp, 0, by simp, fun j hj => absurd hj (Nat.not_lt_zero j)⟩
      · rw [findWay_cons_neg a t s e hp] at hw
        obtain ⟨hmem, i, hi, hbefore⟩ := ih w hw
        refine ⟨hmem, i + 1, by simpa using hi, ?_⟩
        intro j hj w' hw'
        cases j with
        | zero =>
          obtain rfl : a = w' := Option.some.inj (by simpa using hw')
          exact hp
        | succ j' =>
          exact hbefore j' (by omega) w' (by simpa using hw')
  · constructor
    · intro hnone w hwmem hno
      have : findWay ways s e ≠ none := by
        clear hnone
        induction ways with
        | nil => simp at hwmem
        | cons a t ih =>
          rcases List.mem_cons.mp hwmem with rfl | hmem'
          · rw [findWay_cons_pos w t s e hno.1 hno.2]
            simp
          · by_cases hp : s ∈ a.nodes ∧ e ∈ a.nodes
            · rw [findWay_cons_pos a t s e hp.1 hp.2]
              simp
            · rw [findWay_cons_neg a t s e hp]
              exact ih hmem'
      exact this hnone
    · intro hall
      induction ways with
      | nil => rfl
      | cons a t ih =>
        rw [findWay_cons_neg a t s e (hall a (by simp))]
        exact ih fun w hw => hall w (by simp [hw])

theorem c6_first_way_wins_witness :
    findWay [Way.mk [5, 6] none] 1 2 = none :=
  (c6_first_way_wins [Way.mk [5, 6] none] 1 2).2.mpr (by decide)

/-- C7: the surface translation is a total function of the raw tag value;
the synonyms "paved", "asphalt" and "concrete" all map to the same single
category; every raw string not present in the fixed table is returned
verbatim as its own category; an absent raw surface value is classified as
the "Unbekannt" (Unknown) sentinel. -/
theorem c7_surface_translation :
    classifySurface none = "Unbekannt"
    ∧ translateSurface "paved" = "Asphalt"
    ∧ translateSurface "asphalt" = "Asphalt"
    ∧ translateSurface "concrete" = "Asphalt"
    ∧ ∀ s : String, s ∉ surfaceTableKeys → translateSurface s = s := by
  refine ⟨rfl, rfl, rfl, rfl, ?_⟩
  intro s hs
  simp only [surfaceTableKeys, List.mem_cons, List.not_mem_nil, or_false,
    not_or] at hs
  obtain ⟨h1, h2, h3, h4, h5, h6, h7, h8, h9, h10, h11, h12, h13, h14, h15,
    h16, h17, h18, h19, h20, h21, h22⟩ := hs
  simp [translateSurface, h1, h2, h3, h4, h5, h6, h7, h8, h9, h10, h11, h12,
    h13, h14, h15, h16, h17, h18, h19, h20, h21, h22]

theorem c7_surface_translation_witness :
    "metal" ∉ surfaceTableKeys ∧ translateSurface "metal" = "metal" :=
  ⟨by decide, c7_surface_translation.2.2.2.2 "metal" (by decide)⟩

/-- C8: the illumination translation maps the literal negative marker "no"
to "Nicht beleuchtet" (Unlit), every other present raw value to
"Beleuchtet" (Lit), and an absent raw value to "Unbekannt" (Unknown); on
present values its output is confined to exactly the two categories. -/
theorem c8_lit_translation :
    classifyLit none = "Unbekannt"
    ∧ translateLit "no" = "Nicht beleuchtet"
    ∧ (∀ s : String, s ≠ "no" → translateLit s = "Beleuchtet")
    ∧ ∀ s : String, classifyLit (some s) = "Beleuchtet"
        ∨ classifyLit (some s) = "Nicht beleuchtet" := by
  refine ⟨rfl, rfl, ?_, ?_⟩
  · intro s hs
    simp [translateLit, hs]
  · intro s
    by_cases hs : s = "no"
    · subst hs
      right
      rfl
    · left
      simp [classifyLit, translateLit, hs]

theorem c8_lit_translation_witness :
    "yes" ≠ "no" ∧ translateLit "yes" = "Beleuchtet" :=
  ⟨by decide, c8_lit_translation.2.2.1 "yes" (by decide)⟩

/-- C3: for every route whose distance array is consistent (length = N−1)
and on which the aggregation run succeeds (so every edge's lookup and
classification succeeded), the sum over all categories of the accumulated
distance totals on each axis equals the sum of all edge distances of the
route — exactly, in the rational model of JavaScript numbers. -/
theorem c3_totals_conservation (nodes : List Int) (distances : List ℤ)
    (els : List Element) (st : AggState)
    (hlen : distances.length = nodes.length - 1)
    (hok : calculateRouteSurface nodes distances els = .ok st) :
    qSumOk st.surfaces = some distances.sum
    ∧ qSumOk st.illuminated = some distances.sum := by
  have hsome := mkQueryItems_isSome nodes distances hlen
  have h := runItems_qSumOk (waysOf els) els (mkQueryItems nodes distances)
    initAgg st 0 0 hsome hok rfl rfl
  have hsum : sumD (mkQueryItems nodes distances) = distances.sum := by
    unfold sumD
    rw [mkQueryItems_distances nodes distances hlen]
  rw [hsum] at h
  simpa using h

/-- The Overpass answer used by the C3 witness: one asphalt, lit way
covering the whole 3-node route. -/
def c3Els : List Element :=
  [.wayEl ⟨[1, 2, 3], some ⟨some "asphalt", some "yes"⟩⟩,
   .nodeEl ⟨1, 0, 0⟩, .nodeEl ⟨2, 1, 0⟩, .nodeEl ⟨3, 2, 0⟩]

/-- The result of that aggregation run. -/
def c3Res : AggState :=
  { surfaces := [("Asphalt", .num 12)],
    illuminated := [("Beleuchtet", .num 12)],
    surfacePaths := [("Asphalt",
      [[some ⟨1, 0, 0⟩, some ⟨2, 1, 0⟩, some ⟨3, 2, 0⟩]])],
    illuminatedPaths := [("Beleuchtet",
      [[some ⟨1, 0, 0⟩, some ⟨2, 1, 0⟩, some ⟨3, 2, 0⟩]])] }

theorem c3_totals_conservation_witness :
    qSumOk c3Res.surfaces = some (([5, 7] : List ℤ).sum)
    ∧ qSumOk c3Res.illuminated = some (([5, 7] : List ℤ).sum) :=
  c3_totals_conservation [1, 2, 3] [5, 7] c3Els c3Res (by decide) (by rfl)

/-- C10 (amended): the two classification axes do not interfere, provided
the way lists correspond at the tags-object level. For two runs over the
same edges and node records (start records present), if the two way lists
agree pointwise in node membership and in tags-object presence and `lit`
value (`litRel`), the illumination totals and illumination polyline groups
of the two runs are identical (as is whether the run aborts), regardless
of any differences in the surface tags; and symmetrically for the surface
outputs under `surfRel`. Agreement of the flattened lit value alone is NOT
enough — the claim as frozen is false: a way with a surface-only tags
object and a way with no tags object both have an absent lit tag, yet the
first run completes with "Unbekannt" illumination while the second aborts
at the line-293 tags access (see the counterexample). -/
theorem c10_axis_noninterference (els : List Element) (items : List QueryItem)
    (ways₁ ways₂ : List Way)
    (hstart : ∀ it ∈ items, (nodesById els it.start).isSome = true) :
    (List.Forall₂ litRel ways₁ ways₂ →
      illumView (runItems ways₁ els initAgg items)
        = illumView (runItems ways₂ els initAgg items))
    ∧ (List.Forall₂ surfRel ways₁ ways₂ →
      surfView (runItems ways₁ els initAgg items)
        = surfView (runItems ways₂ els initAgg items)) :=
  ⟨fun hrel => runItems_illum_view els items ways₁ ways₂ initAgg initAgg
      hrel hstart rfl rfl,
   fun hrel => runItems_surf_view els items ways₁ ways₂ initAgg initAgg
      hrel hstart rfl rfl⟩

/-- The node records used by the C10 witness. -/
def c10Els : List Element := [.nodeEl ⟨1, 0, 0⟩, .nodeEl ⟨2, 1, 0⟩]

theorem c10_axis_noninterference_witness :
    illumView (runItems [⟨[1, 2], some ⟨some "asphalt", some "yes"⟩⟩] c10Els
        initAgg [⟨some 5, 1, 2⟩])
      = illumView (runItems [⟨[1, 2], some ⟨some "gravel", some "yes"⟩⟩] c10Els
        initAgg [⟨some 5, 1, 2⟩]) :=
  (c10_axis_noninterference c10Els [⟨some 5, 1, 2⟩]
      [⟨[1, 2], some ⟨some "asphalt", some "yes"⟩⟩]
      [⟨[1, 2], some ⟨some "gravel", some "yes"⟩⟩]
      (by decide)).1
    (List.Forall₂.cons ⟨rfl, rfl⟩ List.Forall₂.nil)

/-- C9: for every edge list on which all lookups, tag accesses and node
lookups succeed and all distances are defined, aggregating the edges in
reversed order with the same way list yields the same per-category
distance totals on both axes as aggregating them in the original order
(the totals maps may list categories in a different order; every
category's value is unchanged). -/
theorem c9_reversal_totals (ways : List Way) (els : List Element)
    (items : List QueryItem)
    (hgood : ∀ it ∈ items, goodItem ways els it = true) :
    ∃ st₁ st₂,
      runItems ways els initAgg items = .ok st₁ ∧
      runItems ways els initAgg items.reverse = .ok st₂ ∧
      (∀ k, lookupAssoc st₁.surfaces k = lookupAssoc st₂.surfaces k) ∧
      (∀ k, lookupAssoc st₁.illuminated k = lookupAssoc st₂.illuminated k) := by
  obtain ⟨st₁, h₁⟩ := runItems_ok_of_good ways els items initAgg hgood
  obtain ⟨st₂, h₂⟩ := runItems_ok_of_good ways els items.reverse initAgg
    fun it h => hgood it (List.mem_reverse.mp h)
  have hd₁ : ∀ it ∈ items, it.distance.isSome = true := by
    intro it h
    obtain ⟨_, _, d, hd⟩ := (goodItem_iff ways els it).mp (hgood it h)
    simp [hd]
  have hd₂ : ∀ it ∈ items.reverse, it.distance.isSome = true :=
    fun it h => hd₁ it (List.mem_reverse.mp h)
  have hc₁ := runItems_lookupTotals ways els items initAgg st₁ hd₁ h₁
  have hc₂ := runItems_lookupTotals ways els items.reverse initAgg st₂ hd₂ h₂
  refine ⟨st₁, st₂, h₁, h₂, ?_, ?_⟩
  · intro k
    rw [(hc₁ k).1, (hc₂ k).1]
    show foldNum none (distsFor (surfKeyOf ways) items k)
        = foldNum none (distsFor (surfKeyOf ways) items.reverse k)
    have hrev : distsFor (surfKeyOf ways) items.reverse k
        = (distsFor (surfKeyOf ways) items k).reverse := by
      unfold distsFor
      exact List.filterMap_reverse _ _
    rw [hrev, foldNum_none_reverse]
  · intro k
    rw [(hc₁ k).2, (hc₂ k).2]
    show foldNum none (distsFor (litKeyOf ways) items k)
        = foldNum none (distsFor (litKeyOf ways) items.reverse k)
    have hrev : distsFor (litKeyOf ways) items.reverse k
        = (distsFor (litKeyOf ways) items k).reverse := by
      unfold distsFor
      exact List.filterMap_reverse _ _
    rw [hrev, foldNum_none_reverse]

/-- The way list used by the C9 witness. -/
def c9Ways : List Way :=
  [⟨[1, 2], some ⟨some "asphalt", some "no"⟩⟩,
   ⟨[2, 3], some ⟨some "gravel", some "yes"⟩⟩]

/-- The elements (node records) used by the C9 witness. -/
def c9Els : List Element :=
  [.wayEl ⟨[1, 2], some ⟨some "asphalt", some "no"⟩⟩,
   .wayEl ⟨[2, 3], some ⟨some "gravel", some "yes"⟩⟩,
   .nodeEl ⟨1, 0, 0⟩, .nodeEl ⟨2, 1, 0⟩, .nodeEl ⟨3, 2, 0⟩]

/-- The edge list used by the C9 witness. -/
def c9Items : List QueryItem := [⟨some 5, 1, 2⟩, ⟨some 7, 2, 3⟩]

/-- The forward run's result. -/
def c9St1 : AggState :=
  { surfaces := [("Asphalt", .num 5), ("Schotter", .num 7)],
    illuminated := [("Nicht beleuchtet", .num 5), ("Beleuchtet", .num 7)],
    surfacePaths := [("Asphalt", [[some ⟨1, 0, 0⟩, some ⟨2, 1, 0⟩]]),
                     ("Schotter", [[some ⟨2, 1, 0⟩, some ⟨3, 2, 0⟩]])],
    illuminatedPaths := [("Nicht beleuchtet", [[some ⟨1, 0, 0⟩, some ⟨2, 1, 0⟩]]),
                         ("Beleuchtet", [[some ⟨2, 1, 0⟩, some ⟨3, 2, 0⟩]])] }

/-- The reversed run's result: same totals per key, in the other order. -/
def c9St2 : AggState :=
  { surfaces := [("Schotter", .num 7), ("Asphalt", .num 5)],
    illuminated := [("Beleuchtet", .num 7), ("Nicht beleuchtet", .num 5)],
    surfacePaths := [("Schotter", [[some ⟨2, 1, 0⟩, some ⟨3, 2, 0⟩]]),
                     ("Asphalt", [[some ⟨1, 0, 0⟩, some ⟨2, 1, 0⟩]])],
    illuminatedPaths := [("Beleuchtet", [[some ⟨2, 1, 0⟩, some ⟨3, 2, 0⟩]]),
                         ("Nicht beleuchtet", [[some ⟨1, 0, 0⟩, some ⟨2, 1, 0⟩]])] }

theorem c9_reversal_totals_witness :
    lookupAssoc c9St1.surfaces "Asphalt" = lookupAssoc c9St2.surfaces "Asphalt" := by
  obtain ⟨st₁, st₂, h₁, h₂, hs, _⟩ :=
    c9_reversal_totals c9Ways c9Els c9Items (by decide)
  have e₁ : st₁ = c9St1 := by
    have h : runItems c9Ways c9Els initAgg c9Items = .ok c9St1 := by rfl
    exact Except.ok.inj (h₁.symm.trans h)
  have e₂ : st₂ = c9St2 := by
    have h : runItems c9Ways c9Els initAgg c9Items.reverse = .ok c9St2 := by rfl
    exact Except.ok.inj (h₂.symm.trans h)
  have hfin := hs "Asphalt"
  rw [e₁, e₂] at hfin
  exact hfin

/-- Counting consequence of the pairs characterization: the coordinate
pair of an item classified into `c` occurs in exactly one polyline of
category `c` and in no polyline of any other category, provided the items'
coordinate pairs are pairwise distinct. -/
theorem pair_counts (els : List Element) (items : List QueryItem)
    (keyOf : QueryItem → Option String) (P : String → List PolyPath)
    (hchar : ∀ k, plsPairs (P k)
      = ((items.filter fun it' => keyOf it' = some k).map (itemPair els)))
    (hnodup : (items.map (itemPair els)).Nodup)
    (it : QueryItem) (hit : it ∈ items) (c : String) (hc : keyOf it = some c) :
    polysContaining (P c) (itemPair els it) = 1
    ∧ ∀ c' : String, c' ≠ c → polysContaining (P c') (itemPair els it) = 0 := by
  constructor
  · have hmemf : it ∈ items.filter fun it' => keyOf it' = some c := by
      simp [List.mem_filter, hit, hc]
    have hmem1 : itemPair els it
        ∈ (items.filter fun it' => keyOf it' = some c).map (itemPair els) :=
      List.mem_map_of_mem _ hmemf
    have hsub : ((items.filter fun it' => keyOf it' = some c).map
        (itemPair els)).Sublist (items.map (itemPair els)) :=
      (List.filter_sublist items).map (itemPair els)
    have hle := count_le_of_sublist_deq hsub (itemPair els it)
    have hone := count_nodup_mem_deq hnodup (List.mem_map_of_mem (itemPair els) hit)
    have hge := count_pos_of_mem_deq hmem1
    have hcount := Nat.le_antisymm (hone ▸ hle) hge
    exact countP_mem_of_count_flatten_one (itemPair els it) pathPairs (P c)
      (by have hchar' := hchar c
          unfold plsPairs at hchar'
          rw [hchar']
          exact hcount)
  · intro c' hc'
    have hnotin : itemPair els it
        ∉ (items.filter fun it' => keyOf it' = some c').map (itemPair els) := by
      intro hmem
      obtain ⟨it', hit', heq⟩ := List.mem_map.mp hmem
      have hit'' : it' ∈ items := (List.mem_filter.mp hit').1
      obtain rfl : it' = it := List.inj_on_of_nodup_map hnodup hit'' hit heq
      have hkey := (List.mem_filter.mp hit').2
      simp only [decide_eq_true_eq] at hkey
      rw [hc] at hkey
      exact hc' (Option.some.inj hkey).symm
    exact countP_mem_of_count_flatten_zero (itemPair els it) pathPairs (P c')
      (by have hchar' := hchar c'
          unfold plsPairs at hchar'
          rw [hchar']
          exact count_zero_of_not_mem_deq hnotin)

/-- C5 (amended): for every successfully classified edge of a successful
run whose items have pairwise distinct coordinate pairs, the edge's two
endpoint coordinates appear as consecutive coordinates inside exactly one
polyline of the category the edge was classified into (per axis), and in
no polyline of any other category. Without the distinctness hypothesis the
claim is false (see the counterexample: a revisited segment's pair occurs
in two polylines of its category). -/
theorem c5_edge_in_unique_polyline (ways : List Way) (els : List Element)
    (items : List QueryItem) (st : AggState)
    (hok : runItems ways els initAgg items = .ok st)
    (hnodup : (items.map (itemPair els)).Nodup)
    (it : QueryItem) (hit : it ∈ items) (w : Way) (t : WayTags)
    (hw : findWay ways it.start it.end_ = some w) (ht : w.tags = some t) :
    (polysContaining (pathsAt st.surfacePaths (classifySurface t.surface))
        (itemPair els it) = 1
      ∧ ∀ c : String, c ≠ classifySurface t.surface →
          polysContaining (pathsAt st.surfacePaths c) (itemPair els it) = 0)
    ∧ (polysContaining (pathsAt st.illuminatedPaths (classifyLit t.lit))
        (itemPair els it) = 1
      ∧ ∀ c : String, c ≠ classifyLit t.lit →
          polysContaining (pathsAt st.illuminatedPaths c) (itemPair els it) = 0) := by
  have hpairs := runItems_pairs ways els items initAgg st hok
  have hchar_s : ∀ k, plsPairs (pathsAt st.surfacePaths k)
      = ((items.filter fun it' => surfKeyOf ways it' = some k).map (itemPair els)) := by
    intro k
    have h := (hpairs k).1
    simpa [initAgg, pathsAt, lookupAssoc, plsPairs] using h
  have hchar_l : ∀ k, plsPairs (pathsAt st.illuminatedPaths k)
      = ((items.filter fun it' => litKeyOf ways it' = some k).map (itemPair els)) := by
    intro k
    have h := (hpairs k).2
    simpa [initAgg, pathsAt, lookupAssoc, plsPairs] using h
  exact ⟨pair_counts els items (surfKeyOf ways) (fun k => pathsAt st.surfacePaths k)
      hchar_s hnodup it hit _ (by simp [surfKeyOf, hw, ht]),
    pair_counts els items (litKeyOf ways) (fun k => pathsAt st.illuminatedPaths k)
      hchar_l hnodup it hit _ (by simp [litKeyOf, hw, ht])⟩

/-- The way list of the C5 witness run. -/
def c5wWays : List Way := [⟨[1, 2], some ⟨some "asphalt", some "no"⟩⟩]

/-- The node records of the C5 witness run. -/
def c5wEls : List Element := [.nodeEl ⟨1, 0, 0⟩, .nodeEl ⟨2, 1, 0⟩]

/-- The result state of the C5 witness run. -/
def c5wSt : AggState :=
  { surfaces := [("Asphalt", .num 5)],
    illuminated := [("Nicht beleuchtet", .num 5)],
    surfacePaths := [("Asphalt", [[some ⟨1, 0, 0⟩, some ⟨2, 1, 0⟩]])],
    illuminatedPaths := [("Nicht beleuchtet", [[some ⟨1, 0, 0⟩, some ⟨2, 1, 0⟩]])] }

theorem c5_edge_in_unique_polyline_witness :
    polysContaining (pathsAt c5wSt.surfacePaths "Asphalt")
      (itemPair c5wEls ⟨some 5, 1, 2⟩) = 1 :=
  ((c5_edge_in_unique_polyline c5wWays c5wEls [⟨some 5, 1, 2⟩] c5wSt (by rfl)
      (by decide) ⟨some 5, 1, 2⟩ (by decide)
      ⟨[1, 2], some ⟨some "asphalt", some "no"⟩⟩ ⟨some "asphalt", some "no"⟩
      (by decide) rfl).1).1

/-- The fetched batch of the C5 counterexample: an asphalt way over the
segment 1–2 and a gravel way over 2–3–1. -/
def c5xEls : List Element :=
  [.wayEl ⟨[1, 2], some ⟨some "asphalt", some "yes"⟩⟩,
   .wayEl ⟨[2, 3, 1], some ⟨some "gravel", some "yes"⟩⟩,
   .nodeEl ⟨1, 0, 0⟩, .nodeEl ⟨2, 1, 0⟩, .nodeEl ⟨3, 2, 0⟩]

/-- The result of the C5 counterexample run. -/
def c5xRes : AggState :=
  { surfaces := [("Asphalt", .num 50), ("Schotter", .num 50)],
    illuminated := [("Beleuchtet", .num 100)],
    surfacePaths := [("Asphalt",
        [[some ⟨1, 0, 0⟩, some ⟨2, 1, 0⟩], [some ⟨1, 0, 0⟩, some ⟨2, 1, 0⟩]]),
      ("Schotter",
        [[some ⟨2, 1, 0⟩, some ⟨3, 2, 0⟩, some ⟨1, 0, 0⟩]])],
    illuminatedPaths := [("Beleuchtet",
        [[some ⟨1, 0, 0⟩, some ⟨2, 1, 0⟩, some ⟨3, 2, 0⟩,
          some ⟨1, 0, 0⟩, some ⟨2, 1, 0⟩]])] }

/-- C5 counterexample: on the route 1→2→3→1→2 (distances 10, 20, 30, 40)
the asphalt segment 1→2 is traversed twice, non-contiguously; the run
succeeds and the edge's coordinate pair ((0,0),(1,0)) appears as
consecutive coordinates in TWO polylines of its "Asphalt" category — not
in exactly one, as the claim states. -/
theorem c5_counterexample :
    calculateRouteSurface [1, 2, 3, 1, 2] [10, 20, 30, 40] c5xEls = .ok c5xRes
    ∧ polysContaining (pathsAt c5xRes.surfacePaths "Asphalt")
        (some ((0 : ℤ), (0 : ℤ)), some ((1 : ℤ), (0 : ℤ))) = 2 :=
  ⟨by rfl, by rfl⟩

/-- C10 counterexample: two runs over the same single edge 1→2 and the
same node records (both present), whose ways contain the same nodes and
carry the same illumination tag value — absent in both, as witnessed by
the flattened `tags.bind lit` reads being equal — and differ only in their
surface tagging: the first way has the tags object `{surface: "asphalt"}`,
the second has no tags object at all. The first run completes and
classifies the edge's illumination "Unbekannt"; the second aborts with a
`TypeError` at the line-293 `tags` access. The illumination outputs
therefore differ although every way's lit tag is the same, refuting the
claim as stated. -/
theorem c10_counterexample :
    (([⟨[1, 2], some ⟨some "asphalt", none⟩⟩] : List Way).map Way.nodes)
      = (([⟨[1, 2], none⟩] : List Way).map Way.nodes)
    ∧ (([⟨[1, 2], some ⟨some "asphalt", none⟩⟩] : List Way).map
        fun w => w.tags.bind WayTags.lit)
      = (([⟨[1, 2], none⟩] : List Way).map fun w => w.tags.bind WayTags.lit)
    ∧ (nodesById [.nodeEl ⟨1, 0, 0⟩, .nodeEl ⟨2, 1, 0⟩] 1).isSome = true
    ∧ illumView (runItems [⟨[1, 2], some ⟨some "asphalt", none⟩⟩]
        [.nodeEl ⟨1, 0, 0⟩, .nodeEl ⟨2, 1, 0⟩] initAgg [⟨some 5, 1, 2⟩])
      = .ok ([("Unbekannt", .num 5)],
             [("Unbekannt", [[some ⟨1, 0, 0⟩, some ⟨2, 1, 0⟩]])])
    ∧ illumView (runItems [⟨[1, 2], none⟩]
        [.nodeEl ⟨1, 0, 0⟩, .nodeEl ⟨2, 1, 0⟩] initAgg [⟨some 5, 1, 2⟩])
      = .error .typeError :=
  ⟨rfl, rfl, rfl, rfl, rfl⟩
